import Mathlib

/-! # truelist-cli: the API client, its rate limiter and the batch runners

A shallow embedding of `internal/client/client.go` and of the batch loops of
`cmd/validate.go`.

* Instants and durations are `Int` nanoseconds, as `time.Duration` is an
  `int64` count of nanoseconds.  `Time.Sub` saturates at the `int64` range and
  `time.Second - elapsed` wraps in it; both are modelled.
* The clock is the list of the successive values `time.Now()` returns; a pass
  of the `waitForToken` loop reads exactly one of them, inside the lock.
* The mutex makes the check-reset-decrement sequence atomic, so every
  execution of any number of callers is a sequence of such passes.
-/

namespace Truelist

/-! ## Rate limiter state (`Client`, `New`) -/

/-- The constant `rateLimit = 10 // requests per second`. -/
def rateLimit : Int := 10

/-- One `time.Millisecond`, in nanoseconds. -/
def Millisecond : Int := 1000000

/-- One `time.Second`, in nanoseconds. -/
def Second : Int := 1000000000

/-- Largest `time.Duration` (`1<<63 - 1`). -/
def maxDuration : Int := 9223372036854775807

/-- Smallest `time.Duration` (`-1 << 63`). -/
def minDuration : Int := -9223372036854775808

/-- The rate limiter fields of `Client` (`tokens`, `lastReset`); `mu` is
represented by the atomicity of `lockedPass`. -/
structure Client where
  tokens : Int
  lastReset : Int
  deriving DecidableEq, Repr

/-- The limiter part of `New`: a full bucket whose window starts at the
construction instant `time.Now()`. -/
def New (now : Int) : Client :=
  { tokens := rateLimit, lastReset := now }

/-- The method `Time.Sub`: the difference of two instants, saturated to the
range of `time.Duration`. -/
def Sub (t u : Int) : Int :=
  if t - u > maxDuration then maxDuration
  else if t - u < minDuration then minDuration
  else t - u

/-- Two's-complement wrap of an `int64` result. -/
def wrap64 (x : Int) : Int :=
  (x + 9223372036854775808) % 18446744073709551616 - 9223372036854775808

/-- The critical section of one pass of the `waitForToken` loop, from
`c.mu.Lock()` to `c.mu.Unlock()`, at clock reading `now`: refill when a second
has elapsed since `lastReset`, then take a token when there is one.  The flag
tells whether the pass took a token (the call then returns). -/
def lockedPass (c : Client) (now : Int) : Client × Bool :=
  let elapsed := Sub now c.lastReset
  let c1 : Client :=
    if elapsed ≥ Second then { tokens := rateLimit, lastReset := now } else c
  if c1.tokens > 0 then
    ({ c1 with tokens := c1.tokens - 1 }, true)
  else
    (c1, false)

/-- The duration handed to `time.Sleep` by a pass that found no token:
`time.Second - elapsed`, raised to ten milliseconds when smaller. -/
def sleepDuration (c : Client) (now : Int) : Int :=
  let elapsed := Sub now c.lastReset
  let d := wrap64 (Second - elapsed)
  if d < 10 * Millisecond then 10 * Millisecond else d

/-- What a returned `waitForToken` call leaves behind. -/
structure Acquired where
  /-- limiter state after the decrement -/
  client : Client
  /-- clock reading of the pass that took the token -/
  admittedAt : Int
  /-- durations slept, in order -/
  sleeps : List Int
  /-- clock readings not consumed by this call -/
  rest : List Int
  deriving DecidableEq, Repr

/-- The loop of `waitForToken`, run against the successive readings of the
clock.  Each pass reads one instant; a pass without a token sleeps and
retries.  `none` when the readings run out before a token is obtained. -/
def waitForToken (c : Client) : List Int → Option Acquired
  | [] => none
  | now :: rest =>
    let p := lockedPass c now
    if p.2 then
      some { client := p.1, admittedAt := now, sleeps := [], rest := rest }
    else
      match waitForToken p.1 rest with
      | none => none
      | some a => some { a with sleeps := sleepDuration c now :: a.sleeps }

/-- The limiter state after a sequence of loop passes, by any callers, at
the given clock readings. -/
def passes (c : Client) : List Int → Client
  | [] => c
  | now :: ts => passes (lockedPass c now).1 ts

/-- The instants of the passes that took a token (the admissions), in
order, for a sequence of loop passes at the given clock readings. -/
def admissions (c : Client) : List Int → List Int
  | [] => []
  | now :: ts =>
    if (lockedPass c now).2 then now :: admissions (lockedPass c now).1 ts
    else admissions (lockedPass c now).1 ts

/-- Number of admissions whose instant lies in the rolling one-second window
`[w, w + Second)`. -/
def admittedInWindow (adm : List Int) (w : Int) : Nat :=
  adm.countP (fun t => decide (w ≤ t ∧ t < w + Second))

/-- A clock for a burst around the first refill: ten readings from 0.9 s
after construction on, then ten readings from 1 s on. -/
def burstClock : List Int :=
  [900000000, 900000001, 900000002, 900000003, 900000004,
   900000005, 900000006, 900000007, 900000008, 900000009,
   1000000000, 1000000001, 1000000002, 1000000003, 1000000004,
   1000000005, 1000000006, 1000000007, 1000000008, 1000000009]

/-- Sequential calls of `waitForToken`: `n` calls, one after the other, on
one clock.  For each call: the admission instant and the sleeps it made.
`none` when the readings run out. -/
def calls (c : Client) : Nat → List Int → Option (List (Int × List Int))
  | 0, _ => some []
  | n + 1, clock =>
    match waitForToken c clock with
    | none => none
    | some a =>
      match calls a.client n a.rest with
      | none => none
      | some out => some ((a.admittedAt, a.sleeps) :: out)

/-- The invariant of the limiter together with the admissions made so far:
`lo` is the latest clock reading, `prev` the admission instants. -/
structure WindowInv (c : Client) (lo : Int) (prev : List Int) : Prop where
  tokens_nonneg : 0 ≤ c.tokens
  current : (prev.countP (fun t => decide (c.lastReset ≤ t)) : Int) + c.tokens ≤ 10
  recent : ∀ t ∈ prev, t < c.lastReset + Second ∧ t ≤ lo
  start_le : c.lastReset ≤ lo
  previous : prev.countP
      (fun t => decide (c.lastReset - Second < t ∧ t < c.lastReset)) ≤ 10
  rolling : ∀ w : Int, admittedInWindow prev w ≤ 20

/-! ## The API client (`doRequest`, `Validate`, `Whoami`) -/

/-- The struct `ValidationResult`. -/
structure ValidationResult where
  Email : String
  State : String
  SubState : String
  FreeEmail : Bool
  Role : Bool
  Disposable : Bool
  Suggestion : String
  deriving DecidableEq, Repr

/-- The struct `AccountInfo`. -/
structure AccountInfo where
  Email : String
  Plan : String
  Credits : Int
  deriving DecidableEq, Repr

/-- The caller's `context.Context`, as far as the client observes it: `done`
holds the error the HTTP client reports for a context that is cancelled or
past its deadline, `none` for a live context. -/
structure Context where
  done : Option String
  deriving DecidableEq, Repr

/-- What `doRequest` hands to the HTTP client. -/
structure Request where
  method : String
  path : String
  payload : Option String
  deriving DecidableEq, Repr

/-- Outcome of `c.httpClient.Do(req)` followed by `io.ReadAll(resp.Body)`
under a live context. -/
inductive Exchange where
  | doFailed (cause : String)
  | readFailed (status : Int) (cause : String)
  | completed (status : Int) (body : String)
  deriving DecidableEq, Repr

/-- The library and network side of `doRequest`: `json.Marshal` of the
request payload, `http.NewRequestWithContext` (an error, if any) and the
exchange itself. -/
structure Net where
  marshal : List (String × String) → Except String String
  create : String → String → Option String
  send : Request → Exchange

/-- The verb `%d` of `fmt` on an `int`: decimal digits, with a minus sign
for a negative number. -/
def fmtInt : Int → List Char
  | Int.ofNat n => Nat.toDigits 10 n
  | Int.negSucc n => '-' :: Nat.toDigits 10 (n + 1)

/-- Message of the error for HTTP 401. -/
def errUnauthorized : String := "unauthorized — check your API key"

/-- Message of the error for HTTP 429 on the validate path. -/
def errRateLimited : String := "rate limited — too many requests"

/-- Message of `fmt.Errorf("API error (status %d): %s", status, string(body))`. -/
def apiError (status : Int) (body : String) : String :=
  "API error (status " ++ String.mk (fmtInt status) ++ "): " ++ body

/-- Message of `fmt.Errorf("failed to parse response: %w", err)`. -/
def parseError (cause : String) : String :=
  "failed to parse response: " ++ cause

/-- The function `doRequest`: marshal the payload when there is one, build
the request, perform the exchange, read the body.  A completed exchange is
returned whatever its status code.  Errors are represented by their
messages. -/
def doRequest (net : Net) (ctx : Context) (method path : String)
    (body : Option (List (String × String))) : Except String (String × Int) :=
  let marshalled : Except String (Option String) :=
    match body with
    | none => .ok none
    | some b =>
      match net.marshal b with
      | .error err => .error ("failed to marshal request body: " ++ err)
      | .ok data => .ok (some data)
  match marshalled with
  | .error err => .error err
  | .ok reqBody =>
    match net.create method path with
    | some err => .error ("failed to create request: " ++ err)
    | none =>
      match ctx.done with
      | some err => .error ("request failed: " ++ err)
      | none =>
        match net.send { method := method, path := path, payload := reqBody } with
        | .doFailed err => .error ("request failed: " ++ err)
        | .readFailed _ err => .error ("failed to read response: " ++ err)
        | .completed status respBody => .ok (respBody, status)

/-- The method `Client.Validate`.  `unmarshal` is `json.Unmarshal` into a
`ValidationResult`.  The result pairs what the token acquisition did with the
value returned; `none` when the acquisition never returns on this clock. -/
def Validate (unmarshal : String → Except String ValidationResult) (net : Net)
    (c : Client) (clock : List Int) (ctx : Context) (email : String) :
    Option (Acquired × Except String ValidationResult) :=
  match waitForToken c clock with
  | none => none
  | some a =>
    some (a,
      match doRequest net ctx "POST" "/api/v1/verify" (some [("email", email)]) with
      | .error err => .error err
      | .ok (body, status) =>
        if status = 401 then .error errUnauthorized
        else if status = 429 then .error errRateLimited
        else if status < 200 ∨ status ≥ 300 then .error (apiError status body)
        else
          match unmarshal body with
          | .error err => .error (parseError err)
          | .ok result =>
            .ok (if result.Email = "" then { result with Email := email } else result))

/-- The method `Client.Whoami`.  `unmarshal` is `json.Unmarshal` into an
`AccountInfo`. -/
def Whoami (unmarshal : String → Except String AccountInfo) (net : Net)
    (c : Client) (clock : List Int) (ctx : Context) :
    Option (Acquired × Except String AccountInfo) :=
  match waitForToken c clock with
  | none => none
  | some a =>
    some (a,
      match doRequest net ctx "GET" "/api/v1/account" none with
      | .error err => .error err
      | .ok (body, status) =>
        if status = 401 then .error errUnauthorized
        else if status < 200 ∨ status ≥ 300 then .error (apiError status body)
        else
          match unmarshal body with
          | .error err => .error (parseError err)
          | .ok info => .ok info)

/-- A substitute service that completes every exchange with the given status
and body; marshalling and request construction succeed. -/
def mockNet (status : Int) (body : String) : Net :=
  { marshal := fun _ => .ok "",
    create := fun _ _ => none,
    send := fun _ => .completed status body }

/-- A decoded verdict in which the service left the email out. -/
def decodedWithoutEmail : ValidationResult :=
  { Email := "", State := "valid", SubState := "ok", FreeEmail := true,
    Role := false, Disposable := false, Suggestion := "" }

/-- The account body of the end-to-end scenario. -/
def accountBody : String :=
  "\x7b\"email\":\"u@x.com\",\"plan\":\"pro\",\"credits\":500\x7d"

/-- A decoder that knows the account body of the scenario and rejects
everything else. -/
def accountDecoder (body : String) : Except String AccountInfo :=
  if body = accountBody then .ok { Email := "u@x.com", Plan := "pro", Credits := 500 }
  else .error "invalid character"

/-! ## The batch runners (`runStdinValidation`, `runFileValidation`) -/

/-- The predicate `unicode.IsSpace`: the code points with the Unicode
White_Space property. -/
def isSpace (ch : Char) : Bool :=
  let n := ch.toNat
  decide ((9 ≤ n ∧ n ≤ 13) ∨ n = 32 ∨ n = 133 ∨ n = 160 ∨ n = 5760 ∨
    (8192 ≤ n ∧ n ≤ 8202) ∨ n = 8232 ∨ n = 8233 ∨ n = 8239 ∨ n = 8287 ∨ n = 12288)

/-- The function `strings.TrimSpace`: leading and trailing white space
removed. -/
def TrimSpace (s : String) : String :=
  String.mk ((s.data.dropWhile isSpace).reverse.dropWhile isSpace).reverse

/-- The function `strings.ToLower`, exact on ASCII text; letters outside
ASCII are left as they are here. -/
def ToLower (s : String) : String :=
  String.mk (s.data.map Char.toLower)

/-- The statement `counts[key]++` on a `map[string]int`; a missing key reads
as zero. -/
def bump (counts : String → Int) (key : String) : String → Int :=
  fun k => if k = key then counts k + 1 else counts k

/-- The initial map `{"valid": 0, "invalid": 0, "risky": 0, "unknown": 0}`. -/
def zeroCounts : String → Int := fun _ => 0

/-- The arguments of `output.PrintSummary`. -/
structure Summary where
  total : Int
  valid : Int
  invalid : Int
  risky : Int
  unknown : Int
  deriving DecidableEq, Repr

/-- The summary both runners compute from the counts: the total is the sum of
the four state counts. -/
def summarize (counts : String → Int) : Summary :=
  { total := counts "valid" + counts "invalid" + counts "risky" + counts "unknown",
    valid := counts "valid", invalid := counts "invalid",
    risky := counts "risky", unknown := counts "unknown" }

/-- What the loop of `runStdinValidation` has done so far. -/
structure StdinRun where
  /-- emails handed to `c.Validate`, in order -/
  validated : List String
  /-- messages handed to `output.PrintError` -/
  warnings : List String
  /-- the slice `results` -/
  results : List ValidationResult
  /-- results printed as they arrive (not in JSON mode) -/
  printed : List ValidationResult
  /-- the map `counts` -/
  counts : String → Int

/-- The scanner loop of `runStdinValidation` over the lines read; `i` is the
position of the current line, and `validate i email` is the outcome of the
call `c.Validate(context.Background(), email)` made for it. -/
def stdinLoop (flagJSON : Bool) (validate : Nat → String → Except String ValidationResult) :
    Nat → List String → StdinRun → StdinRun
  | _, [], st => st
  | i, line :: rest, st =>
    let email := TrimSpace line
    if email = "" then
      stdinLoop flagJSON validate (i + 1) rest st
    else
      match validate i email with
      | .error err =>
        stdinLoop flagJSON validate (i + 1) rest
          { st with
            validated := st.validated ++ [email],
            warnings := st.warnings ++ ["failed to validate " ++ email ++ ": " ++ err] }
      | .ok result =>
        stdinLoop flagJSON validate (i + 1) rest
          { validated := st.validated ++ [email],
            warnings := st.warnings,
            results := st.results ++ [result],
            printed := if flagJSON then st.printed else st.printed ++ [result],
            counts := bump st.counts (ToLower result.State) }

/-- What `runStdinValidation` leaves behind. -/
structure StdinReport where
  run : StdinRun
  /-- the list encoded to stdout in JSON mode -/
  json : Option (List ValidationResult)
  /-- the arguments of `output.PrintSummary`, when it is called -/
  summary : Option Summary
  /-- the error returned -/
  err : Option String

/-- An untouched run. -/
def StdinRun.empty : StdinRun :=
  { validated := [], warnings := [], results := [], printed := [], counts := zeroCounts }

/-- The function `runStdinValidation`.  `charDevice` tells whether stdin is a
terminal, `lines` are the lines the scanner yields, `scanErr` is
`scanner.Err()` and `encodeErr` the error of the JSON encoder, if any. -/
def runStdinValidation (flagJSON flagQuiet charDevice : Bool)
    (validate : Nat → String → Except String ValidationResult)
    (lines : List String) (scanErr encodeErr : Option String) : StdinReport :=
  if charDevice then
    { run := StdinRun.empty, json := none, summary := none,
      err := some ("no email provided — pass an email as an argument, " ++
        "use --file, or pipe from stdin") }
  else
    let st := stdinLoop flagJSON validate 0 lines StdinRun.empty
    match flagJSON, encodeErr with
    | true, some e =>
      { run := st, json := none, summary := none,
        err := some ("failed to encode JSON: " ++ e) }
    | _, _ =>
      { run := st,
        json := if flagJSON then some st.results else none,
        summary := if !flagQuiet && !flagJSON then some (summarize st.counts) else none,
        err := scanErr }

/-- The input of the batch scenario. -/
def scenarioLines : List String :=
  ["a@test.com", "", "  ", "bad-row-triggers-error", "b@test.com"]

/-- A verdict with the given email and state. -/
def verdict (email state : String) : ValidationResult :=
  { Email := email, State := state, SubState := "", FreeEmail := false,
    Role := false, Disposable := false, Suggestion := "" }

/-- A substitute `Validate` for the scenario: an error for the row that
triggers one, a valid verdict otherwise. -/
def scenarioValidate (_ : Nat) (email : String) : Except String ValidationResult :=
  if email = "bad-row-triggers-error" then .error "API error (status 500): boom"
  else .ok (verdict email "valid")

/-- What the row loop of `runFileValidation` has done so far. -/
structure FileRun where
  /-- data rows the CSV writer accepted, in order -/
  rows : List (List String)
  /-- warnings printed to stderr -/
  warnings : List String
  /-- emails handed to `c.Validate`, in order -/
  validated : List String
  /-- number of `bar.Add(1)` calls -/
  progress : Nat
  /-- the map `counts` -/
  counts : String → Int

/-- An untouched run. -/
def FileRun.empty : FileRun :=
  { rows := [], warnings := [], validated := [], progress := 0, counts := zeroCounts }

/-- A call `_ = writer.Write(outRow)` whose error is dropped, followed by
`_ = bar.Add(1)`: the row is written unless the writer refuses it. -/
def FileRun.put (writeErr : Nat → Option String) (i : Nat) (outRow : List String)
    (st : FileRun) : FileRun :=
  match writeErr i with
  | some _ => { st with progress := st.progress + 1 }
  | none => { st with rows := st.rows ++ [outRow], progress := st.progress + 1 }

/-- The row loop of `runFileValidation`; `i` is the position of the current
row, `validate i email` the outcome of the `c.Validate` call made for it and
`writeErr i` the error of the CSV writer for its output row, if any. -/
def fileLoop (validate : Nat → String → Except String ValidationResult)
    (writeErr : Nat → Option String) (emailColIdx : Nat) :
    Nat → List (List String) → FileRun → Except String FileRun
  | _, [], st => .ok st
  | i, row :: rest, st =>
    if emailColIdx ≥ row.length then
      fileLoop validate writeErr emailColIdx (i + 1) rest
        (st.put writeErr i (row ++ ["", "", ""]))
    else
      let email := TrimSpace ((row[emailColIdx]?).getD "")
      if email = "" then
        fileLoop validate writeErr emailColIdx (i + 1) rest
          (st.put writeErr i (row ++ ["", "", ""]))
      else
        match validate i email with
        | .error validateErr =>
          fileLoop validate writeErr emailColIdx (i + 1) rest
            (FileRun.put writeErr i (row ++ ["error", validateErr, ""])
              { st with
                validated := st.validated ++ [email],
                warnings := st.warnings ++
                  ["\nWarning: failed to validate " ++ email ++ ": " ++ validateErr ++ "\n"] })
        | .ok result =>
          match writeErr i with
          | some e => .error ("failed to write row: " ++ e)
          | none =>
            fileLoop validate writeErr emailColIdx (i + 1) rest
              { rows := st.rows ++ [row ++ [result.State, result.SubState, result.Suggestion]],
                warnings := st.warnings,
                validated := st.validated ++ [email],
                progress := st.progress + 1,
                counts := bump st.counts (ToLower result.State) }

/-- What one call `reader.Read()` yields before the end of the file: a record,
with the line it starts on, or an error of the parser or of the file. -/
inductive ReadStep where
  | record (line : Nat) (fields : List String)
  | failure (readErr : String)
  deriving DecidableEq, Repr

/-- Message of the `csv.ParseError` that carries `csv.ErrFieldCount`. -/
def fieldCountError (line : Nat) : String :=
  "record on line " ++ String.mk (Nat.toDigits 10 line) ++ ": wrong number of fields"

/-- The loop `for { row, readErr := reader.Read() ... }` that collects the data
rows.  The reader is the one `csv.NewReader(f)` returns, whose
`FieldsPerRecord` is left at zero: `Read` sets it to the field count of the
first record it reads (the header) and from then on reports
`csv.ErrFieldCount` for a record with another count.  `fieldsPerRecord` is the
reader's current value.  The end of the list is `io.EOF`. -/
def readRows : Nat → List ReadStep → Except String (List (List String))
  | _, [] => .ok []
  | _, ReadStep.failure readErr :: _ => .error readErr
  | fieldsPerRecord, ReadStep.record line row :: rest =>
    if fieldsPerRecord > 0 ∧ row.length ≠ fieldsPerRecord then
      .error (fieldCountError line)
    else
      match readRows (if fieldsPerRecord = 0 then row.length else fieldsPerRecord) rest with
      | .error readErr => .error readErr
      | .ok rows => .ok (row :: rows)

/-- The file system and the CSV writer, as `runFileValidation` meets them
after the rows are read: the error of `os.Create`, of the write of the output
header, of the write of the output row of input row `i`, and `writer.Error()`
after the flush, if any. -/
structure FileEnv where
  createErr : Option String
  headerErr : Option String
  writeErr : Nat → Option String
  flushErr : Option String

/-- What `runFileValidation` leaves behind when it returns no error. -/
structure FileReport where
  /-- the header written to the output file -/
  outHeader : List String
  run : FileRun
  summary : Summary

/-- The function `runFileValidation` once the flags are checked, the file is
opened, the header is read and the email column is found at `emailColIdx`:
read all the rows, create the output file, write its header, run the row
loop, flush, print the summary.  `input` is what the successive calls of
`reader.Read()` yield after the header. -/
def runFileValidation (validate : Nat → String → Except String ValidationResult)
    (env : FileEnv) (header : List String) (emailColIdx : Nat)
    (input : List ReadStep) : Except String FileReport :=
  match readRows header.length input with
  | .error readErr => .error readErr
  | .ok rows =>
    match env.createErr with
    | some err => .error err
    | none =>
      match env.headerErr with
      | some err => .error ("failed to write header: " ++ err)
      | none =>
        match fileLoop validate env.writeErr emailColIdx 0 rows FileRun.empty with
        | .error e => .error e
        | .ok st =>
          match env.flushErr with
          | some e => .error ("failed to write CSV output: " ++ e)
          | none =>
            .ok { outHeader := header ++
                    ["truelist_state", "truelist_sub_state", "truelist_suggestion"],
                  run := st, summary := summarize st.counts }

/-- An environment in which every file operation succeeds. -/
def quietEnv : FileEnv :=
  { createErr := none, headerErr := none, writeErr := fun _ => none, flushErr := none }

/-- The three validation fields of an output row, in the words of the
specification: empty fields for a row with too few columns or an empty
trimmed email cell, the marker `error` with the message when validate fails,
and state, sub-state and suggestion when it succeeds. -/
def expectedFields (validate : Nat → String → Except String ValidationResult)
    (emailColIdx i : Nat) (row : List String) : List String :=
  match row[emailColIdx]? with
  | none => ["", "", ""]
  | some cell =>
    if TrimSpace cell = "" then ["", "", ""]
    else
      match validate i (TrimSpace cell) with
      | .error e => ["error", e, ""]
      | .ok r => [r.State, r.SubState, r.Suggestion]

/-- The email of a row for which validate is called, in the words of the
specification: none for a row with too few columns or an empty trimmed
cell. -/
def expectedCall (emailColIdx : Nat) (row : List String) : Option String :=
  match row[emailColIdx]? with
  | none => none
  | some cell => if TrimSpace cell = "" then none else some (TrimSpace cell)

/-- Sample data rows: a complete row, a short row, a row with a blank
email and a row whose validation fails. -/
def sampleRows : List (List String) :=
  [["1", "a@test.com"], ["2"], ["3", "  "], ["4", "bad-row-triggers-error"]]

/-- The header of the sample file. -/
def sampleHeader : List String := ["id", "email"]

/-- The sample rows as the reader yields them, one record per line after the
header line. -/
def sampleInput : List ReadStep :=
  [ReadStep.record 2 ["1", "a@test.com"], ReadStep.record 3 ["2"],
   ReadStep.record 4 ["3", "  "], ReadStep.record 5 ["4", "bad-row-triggers-error"]]

/-- The sample file without its short row. -/
def uniformInput : List ReadStep :=
  [ReadStep.record 2 ["1", "a@test.com"], ReadStep.record 3 ["3", "  "],
   ReadStep.record 4 ["4", "bad-row-triggers-error"]]

/-! ## Rate limiter: basic facts -/

theorem Sub_ge_Second_iff (t u : Int) : Sub t u ≥ Second ↔ t - u ≥ Second := by
  unfold Sub Second maxDuration minDuration
  split_ifs <;> omega

theorem lockedPass_tokens_bounds (c : Client) (now : Int)
    (h : 0 ≤ c.tokens ∧ c.tokens ≤ rateLimit) :
    0 ≤ (lockedPass c now).1.tokens ∧ (lockedPass c now).1.tokens ≤ rateLimit := by
  unfold lockedPass rateLimit at *
  simp only
  split_ifs <;> simp_all
  all_goals omega

theorem passes_tokens_bounds (ts : List Int) :
    ∀ c : Client, 0 ≤ c.tokens ∧ c.tokens ≤ rateLimit →
      0 ≤ (passes c ts).tokens ∧ (passes c ts).tokens ≤ rateLimit := by
  induction ts with
  | nil => intro c h; simpa [passes] using h
  | cons now ts ih =>
    intro c h
    simp only [passes]
    exact ih _ (lockedPass_tokens_bounds c now h)

/-- C2: every limiter state reached from the state `New` creates, by any
sequence of check-reset-decrement passes at any clock readings, has a token
count between 0 and the ceiling 10. -/
theorem tokens_within_ceiling (t0 : Int) (ts : List Int) :
    0 ≤ (passes (New t0) ts).tokens ∧ (passes (New t0) ts).tokens ≤ 10 := by
  have h := passes_tokens_bounds ts (New t0) (by simp [New, rateLimit])
  simpa [rateLimit] using h

/-! ## Rate limiter: admissions per window -/

theorem countP_le_add_of_imp_or {α : Type} (p q r : α → Bool) (l : List α)
    (h : ∀ x ∈ l, p x = true → q x = true ∨ r x = true) :
    l.countP p ≤ l.countP q + l.countP r := by
  induction l with
  | nil => simp
  | cons a l ih =>
    have ih1 := ih (fun x hx => h x (List.mem_cons_of_mem a hx))
    have ha := h a (List.mem_cons_self a l)
    simp only [List.countP_cons]
    cases hpa : p a <;> cases hqa : q a <;> cases hra : r a <;> simp_all <;> omega

theorem WindowInv_New (t0 : Int) : WindowInv (New t0) t0 [] := by
  constructor <;> simp [New, rateLimit, admittedInWindow]

theorem lockedPass_refill (c : Client) (now : Int) (h : now - c.lastReset ≥ Second) :
    lockedPass c now = ({ tokens := 9, lastReset := now }, true) := by
  have h1 : Sub now c.lastReset ≥ Second := (Sub_ge_Second_iff _ _).2 h
  simp [lockedPass, h1, rateLimit]

theorem lockedPass_take (c : Client) (now : Int) (h : now - c.lastReset < Second)
    (ht : 0 < c.tokens) :
    lockedPass c now = ({ tokens := c.tokens - 1, lastReset := c.lastReset }, true) := by
  have h1 : ¬ Sub now c.lastReset ≥ Second := fun h2 =>
    absurd ((Sub_ge_Second_iff _ _).1 h2) (by omega)
  simp [lockedPass, h1, ht]

theorem lockedPass_empty (c : Client) (now : Int) (h : now - c.lastReset < Second)
    (ht : c.tokens ≤ 0) :
    lockedPass c now = (c, false) := by
  have h1 : ¬ Sub now c.lastReset ≥ Second := fun h2 =>
    absurd ((Sub_ge_Second_iff _ _).1 h2) (by omega)
  have h2 : ¬ 0 < c.tokens := by omega
  simp [lockedPass, h1, h2]

theorem WindowInv_refill (c : Client) (lo now : Int) (prev : List Int)
    (h : WindowInv c lo prev) (hr : now - c.lastReset ≥ Second) :
    WindowInv { tokens := 9, lastReset := now } now (prev ++ [now]) := by
  have hold : ∀ t ∈ prev, t < now := fun t ht => by
    have := (h.recent t ht).1
    omega
  have hcur : prev.countP (fun t => decide (c.lastReset ≤ t)) ≤ 10 := by
    have h1 := h.current
    have h2 := h.tokens_nonneg
    omega
  constructor
  · simp
  · have hz : prev.countP (fun t => decide (now ≤ t)) = 0 := by
      rw [List.countP_eq_zero]
      intro t ht
      have := hold t ht
      simp only [decide_eq_true_eq]
      omega
    simp [List.countP_append, hz]
  · intro t ht
    rcases List.mem_append.1 ht with h1 | h1
    · have := h.recent t h1
      have := hold t h1
      simp only [Second] at *
      omega
    · simp only [List.mem_singleton] at h1
      simp only [Second]
      omega
  · simp
  · have hle : prev.countP (fun t => decide (now - Second < t ∧ t < now)) ≤
        prev.countP (fun t => decide (c.lastReset ≤ t)) := by
      apply List.countP_mono_left
      intro t _ ht
      simp only [decide_eq_true_eq] at ht ⊢
      omega
    simp only [List.countP_append, List.countP_singleton]
    simp only [lt_self_iff_false, and_false, decide_False]
    simp only [Bool.false_eq_true, if_false]
    omega
  · intro w
    have hw := h.rolling w
    unfold admittedInWindow at hw ⊢
    simp only [List.countP_append, List.countP_singleton]
    split_ifs with hin
    · simp only [decide_eq_true_eq] at hin
      have hle : prev.countP (fun t => decide (w ≤ t ∧ t < w + Second)) ≤
          prev.countP (fun t => decide (c.lastReset ≤ t)) := by
        apply List.countP_mono_left
        intro t _ ht
        simp only [decide_eq_true_eq] at ht ⊢
        omega
      omega
    · omega

theorem WindowInv_take (c : Client) (lo now : Int) (prev : List Int)
    (h : WindowInv c lo prev) (hnow : lo ≤ now) (hr : now - c.lastReset < Second)
    (ht : 0 < c.tokens) :
    WindowInv { tokens := c.tokens - 1, lastReset := c.lastReset } now (prev ++ [now]) := by
  have hstart := h.start_le
  have hcur : ((prev ++ [now]).countP (fun t => decide (c.lastReset ≤ t)) : Int) +
      (c.tokens - 1) ≤ 10 := by
    have h1 := h.current
    have h2 : decide (c.lastReset ≤ now) = true := by
      simp only [decide_eq_true_eq]
      omega
    simp only [List.countP_append, List.countP_singleton, h2, if_true]
    push_cast
    omega
  have hprev : (prev ++ [now]).countP
      (fun t => decide (c.lastReset - Second < t ∧ t < c.lastReset)) ≤ 10 := by
    have h1 := h.previous
    have h2 : decide (c.lastReset - Second < now ∧ now < c.lastReset) = false := by
      simp only [decide_eq_false_iff_not]
      omega
    simp only [List.countP_append, List.countP_singleton, h2]
    simpa using h1
  constructor
  · show 0 ≤ c.tokens - 1
    omega
  · exact hcur
  · intro t ht
    rcases List.mem_append.1 ht with h1 | h1
    · have := h.recent t h1
      show t < c.lastReset + Second ∧ t ≤ now
      omega
    · simp only [List.mem_singleton] at h1
      show t < c.lastReset + Second ∧ t ≤ now
      omega
  · show c.lastReset ≤ now
    omega
  · exact hprev
  · intro w
    by_cases hin : w ≤ now ∧ now < w + Second
    · have hsplit := countP_le_add_of_imp_or
        (fun t => decide (w ≤ t ∧ t < w + Second))
        (fun t => decide (c.lastReset - Second < t ∧ t < c.lastReset))
        (fun t => decide (c.lastReset ≤ t)) (prev ++ [now])
        (fun t _ ht => by
          simp only [decide_eq_true_eq] at ht ⊢
          omega)
      have h3 : 0 ≤ c.tokens - 1 := by omega
      unfold admittedInWindow
      omega
    · have hw := h.rolling w
      have h2 : decide (w ≤ now ∧ now < w + Second) = false := by
        simp only [decide_eq_false_iff_not]
        exact hin
      unfold admittedInWindow at hw ⊢
      simp only [List.countP_append, List.countP_singleton, h2]
      simpa using hw

theorem WindowInv_later (c : Client) (lo now : Int) (prev : List Int)
    (h : WindowInv c lo prev) (hnow : lo ≤ now) : WindowInv c now prev := by
  refine ⟨h.tokens_nonneg, h.current, ?_, ?_, h.previous, h.rolling⟩
  · intro t ht
    have := h.recent t ht
    omega
  · have := h.start_le
    omega

/-- The invariant is kept by a whole sequence of passes read against a
non-decreasing clock. -/
theorem WindowInv_passes (ts : List Int) :
    ∀ (c : Client) (lo : Int) (prev : List Int), WindowInv c lo prev →
      List.Chain (fun a b => a ≤ b) lo ts →
      ∃ hi, WindowInv (passes c ts) hi (prev ++ admissions c ts) := by
  induction ts with
  | nil =>
    intro c lo prev h _
    exact ⟨lo, by simpa [passes, admissions] using h⟩
  | cons now ts ih =>
    intro c lo prev h hch
    have hnow : lo ≤ now := (List.chain_cons.1 hch).1
    have hrest : List.Chain (fun a b => a ≤ b) now ts := (List.chain_cons.1 hch).2
    by_cases hr : now - c.lastReset ≥ Second
    · have hp := lockedPass_refill c now hr
      obtain ⟨hi, hinv⟩ := ih _ now (prev ++ [now]) (WindowInv_refill c lo now prev h hr) hrest
      refine ⟨hi, ?_⟩
      simpa [passes, admissions, hp] using hinv
    · have hr1 : now - c.lastReset < Second := by omega
      by_cases ht : 0 < c.tokens
      · have hp := lockedPass_take c now hr1 ht
        obtain ⟨hi, hinv⟩ :=
          ih _ now (prev ++ [now]) (WindowInv_take c lo now prev h hnow hr1 ht) hrest
        refine ⟨hi, ?_⟩
        simpa [passes, admissions, hp] using hinv
      · have hp := lockedPass_empty c now hr1 (by omega)
        obtain ⟨hi, hinv⟩ := ih c now prev (WindowInv_later c lo now prev h hnow) hrest
        refine ⟨hi, ?_⟩
        simpa [passes, admissions, hp] using hinv

theorem burstClock_nondecreasing : List.Chain (fun a b => a ≤ b) 0 burstClock := by
  simp [burstClock]

/-- C1 (as stated, refuted): twenty passes on a fresh client, ten just before
the first refill and ten just after it, are all admitted, and all twenty
instants lie in the rolling second that starts at 0.9 s. -/
theorem rolling_window_exceeds_ceiling :
    List.Chain (fun a b => a ≤ b) 0 burstClock ∧
      admissions (New 0) burstClock = burstClock ∧
      admittedInWindow (admissions (New 0) burstClock) 900000000 = 20 ∧
      ¬ admittedInWindow (admissions (New 0) burstClock) 900000000 ≤ 10 :=
  ⟨burstClock_nondecreasing, by decide, by decide, by decide⟩

/-- C1 (amended): for every sequence of passes of `waitForToken` on a client
made by `New`, read against a non-decreasing clock, at most 2 * 10 = 20
admission instants lie in any rolling window of one second, and the
admissions since the latest refill (instants from `lastReset` on) number at
most 10 minus the tokens left. -/
theorem admissions_per_rolling_window (t0 : Int) (ts : List Int)
    (h : List.Chain (fun a b => a ≤ b) t0 ts) (w : Int) :
    admittedInWindow (admissions (New t0) ts) w ≤ 20 ∧
      ((admissions (New t0) ts).countP
        (fun t => decide ((passes (New t0) ts).lastReset ≤ t)) : Int)
        + (passes (New t0) ts).tokens ≤ 10 := by
  obtain ⟨hi, hinv⟩ := WindowInv_passes ts (New t0) t0 [] (WindowInv_New t0) h
  simp only [List.nil_append] at hinv
  exact ⟨hinv.rolling w, hinv.current⟩

theorem admissions_per_rolling_window_witness :
    List.Chain (fun a b => a ≤ b) 0 burstClock ∧
      admittedInWindow (admissions (New 0) burstClock) 900000000 ≤ 20 ∧
      ((admissions (New 0) burstClock).countP
        (fun t => decide ((passes (New 0) burstClock).lastReset ≤ t)) : Int)
        + (passes (New 0) burstClock).tokens ≤ 10 :=
  ⟨burstClock_nondecreasing,
    admissions_per_rolling_window 0 burstClock burstClock_nondecreasing 900000000⟩

/-! ## Rate limiter: a burst of eleven -/

theorem waitForToken_take (c : Client) (now : Int) (clock : List Int)
    (h : now - c.lastReset < Second) (ht : 0 < c.tokens) :
    waitForToken c (now :: clock) =
      some { client := { tokens := c.tokens - 1, lastReset := c.lastReset },
             admittedAt := now, sleeps := [], rest := clock } := by
  simp [waitForToken, lockedPass_take c now h ht]

theorem waitForToken_empty_until (t0 : Int) (pre : List Int) (T : Int) (rest : List Int)
    (hpre : ∀ t ∈ pre, t < t0 + Second) (hT : t0 + Second ≤ T) :
    waitForToken { tokens := 0, lastReset := t0 } (pre ++ T :: rest) =
      some { client := { tokens := 9, lastReset := T }, admittedAt := T,
             sleeps := pre.map (sleepDuration { tokens := 0, lastReset := t0 }),
             rest := rest } := by
  induction pre with
  | nil =>
    have hp := lockedPass_refill { tokens := 0, lastReset := t0 } T (by simp only; omega)
    simp [waitForToken, hp]
  | cons t pre ih =>
    have ht : t < t0 + Second := hpre t (List.mem_cons_self t pre)
    have hp := lockedPass_empty { tokens := 0, lastReset := t0 } t
      (by simp only; omega) (by simp)
    have ih1 := ih (fun x hx => hpre x (List.mem_cons_of_mem t hx))
    simp [waitForToken, hp, ih1]

theorem calls_while_tokens (ts : List Int) :
    ∀ (k : Int) (t0 : Int) (m : Nat) (clock : List Int),
      (ts.length : Int) ≤ k → (∀ t ∈ ts, t < t0 + Second) →
      calls { tokens := k, lastReset := t0 } (ts.length + m) (ts ++ clock) =
        (calls { tokens := k - ts.length, lastReset := t0 } m clock).map
          (fun out => ts.map (fun t => (t, ([] : List Int))) ++ out) := by
  induction ts with
  | nil =>
    intro k t0 m clock _ _
    simp
  | cons t ts ih =>
    intro k t0 m clock hk hts
    have ht : t < t0 + Second := hts t (List.mem_cons_self t ts)
    have hk1 : (ts.length : Int) ≤ k - 1 := by
      simp only [List.length_cons] at hk
      push_cast at hk
      omega
    have hw := waitForToken_take { tokens := k, lastReset := t0 } t (ts ++ clock)
      (by simp only; omega)
      (by
        show 0 < k
        simp only [List.length_cons] at hk
        push_cast at hk
        omega)
    have ih1 := ih (k - 1) t0 m clock hk1 (fun x hx => hts x (List.mem_cons_of_mem t hx))
    have hlen : (t :: ts).length + m = (ts.length + m) + 1 := by
      simp only [List.length_cons]
      omega
    rw [hlen]
    simp only [calls, List.cons_append, hw, ih1]
    have hk2 : k - 1 - (ts.length : Int) = k - ((t :: ts).length : Int) := by
      simp only [List.length_cons]
      push_cast
      omega
    rw [hk2]
    cases calls { tokens := k - ((t :: ts).length : Int), lastReset := t0 } m clock <;> simp

/-- C8: on a freshly constructed client, when eleven acquire attempts are
made at clock readings less than one second after the window start, the
first ten are admitted at once, without sleeping, and the eleventh is admitted
only at the first reading that has reached window start + 1 second, after a
sleep at each of its earlier passes. -/
theorem burst_admits_ten_then_waits (t0 : Int) (ts : List Int) (t11 : Int)
    (pre : List Int) (T : Int) (rest : List Int)
    (hlen : ts.length = 10) (hts : ∀ t ∈ ts, t < t0 + Second)
    (h11 : t11 < t0 + Second) (hpre : ∀ t ∈ pre, t < t0 + Second)
    (hT : t0 + Second ≤ T) :
    calls (New t0) 11 (ts ++ t11 :: (pre ++ T :: rest)) =
      some (ts.map (fun t => (t, ([] : List Int))) ++
        [(T, (t11 :: pre).map (sleepDuration { tokens := 0, lastReset := t0 }))]) := by
  have h1 := calls_while_tokens ts 10 t0 1 (t11 :: (pre ++ T :: rest))
    (by rw [hlen]; norm_num) hts
  rw [hlen] at h1
  have h2 := waitForToken_empty_until t0 (t11 :: pre) T rest
    (fun t ht => by
      rcases List.mem_cons.1 ht with h | h
      · rw [h]; exact h11
      · exact hpre t h) hT
  simp only [List.cons_append] at h2
  have h3 : calls { tokens := 10 - ((10 : Nat) : Int), lastReset := t0 } 1
      (t11 :: (pre ++ T :: rest)) =
      some [(T, (t11 :: pre).map (sleepDuration { tokens := 0, lastReset := t0 }))] := by
    simp only [calls]
    norm_num
    rw [h2]
    simp
  rw [h3] at h1
  simpa [New, rateLimit] using h1

theorem burst_admits_ten_then_waits_witness :
    calls (New 0) 11 ([1, 2, 3, 4, 5, 6, 7, 8, 9, 10] ++ 11 :: ([] ++ 1000000000 :: [])) =
      some [(1, []), (2, []), (3, []), (4, []), (5, []), (6, []), (7, []), (8, []),
        (9, []), (10, []), (1000000000, [999999989])] :=
  (burst_admits_ten_then_waits 0 [1, 2, 3, 4, 5, 6, 7, 8, 9, 10] 11 [] 1000000000 []
    rfl (by decide) (by decide) (by decide) (by decide)).trans (by decide)

/-! ## Error messages: what they carry and how they differ -/

theorem digitChar_inj (d e : Nat) (hd : d < 10) (he : e < 10)
    (h : Nat.digitChar d = Nat.digitChar e) : d = e := by
  interval_cases d <;> interval_cases e <;> first | rfl | exact absurd h (by decide)

theorem map_digitChar_inj (l1 : List Nat) :
    ∀ l2 : List Nat, (∀ x ∈ l1, x < 10) → (∀ x ∈ l2, x < 10) →
      l1.map Nat.digitChar = l2.map Nat.digitChar → l1 = l2 := by
  induction l1 with
  | nil =>
    intro l2 _ _ h
    cases l2 with
    | nil => rfl
    | cons b l2 => simp at h
  | cons a l1 ih =>
    intro l2 h1 h2 h
    cases l2 with
    | nil => simp at h
    | cons b l2 =>
      simp only [List.map_cons, List.cons.injEq] at h
      have hab := digitChar_inj a b (h1 a (List.mem_cons_self a l1))
        (h2 b (List.mem_cons_self b l2)) h.1
      have ht := ih l2 (fun x hx => h1 x (List.mem_cons_of_mem a hx))
        (fun x hx => h2 x (List.mem_cons_of_mem b hx)) h.2
      rw [hab, ht]

theorem toDigitsCore_eq_digits (fuel : Nat) :
    ∀ (n : Nat) (acc : List Char), n < fuel → 0 < n →
      Nat.toDigitsCore 10 fuel n acc =
        ((Nat.digits 10 n).reverse.map Nat.digitChar) ++ acc := by
  induction fuel with
  | zero => intro n acc h; omega
  | succ f ih =>
    intro n acc h hpos
    rw [Nat.digits_def' (by norm_num) hpos]
    simp only [Nat.toDigitsCore]
    by_cases hq : n / 10 = 0
    · simp [hq]
    · have h1 : n / 10 < f := by omega
      have h2 : 0 < n / 10 := by omega
      simp [hq, ih (n / 10) _ h1 h2]

theorem toDigits_pos (n : Nat) (h : 0 < n) :
    Nat.toDigits 10 n = (Nat.digits 10 n).reverse.map Nat.digitChar := by
  have := toDigitsCore_eq_digits (n + 1) n [] (by omega) h
  simpa [Nat.toDigits] using this

theorem toDigits_zero : Nat.toDigits 10 0 = ['0'] := by decide

theorem toDigits_mem_digit (n : Nat) :
    ∀ ch ∈ Nat.toDigits 10 n, ∃ d, d < 10 ∧ ch = Nat.digitChar d := by
  intro ch hch
  rcases Nat.eq_zero_or_pos n with h0 | hpos
  · rw [h0, toDigits_zero] at hch
    simp only [List.mem_singleton] at hch
    exact ⟨0, by norm_num, by rw [hch]; decide⟩
  · rw [toDigits_pos n hpos] at hch
    simp only [List.mem_map, List.mem_reverse] at hch
    obtain ⟨d, hd, hdc⟩ := hch
    exact ⟨d, Nat.digits_lt_base (by norm_num) hd, hdc.symm⟩

theorem toDigits_inj (n m : Nat) (h : Nat.toDigits 10 n = Nat.toDigits 10 m) : n = m := by
  have key : ∀ k : Nat, 0 < k → Nat.toDigits 10 k ≠ ['0'] := by
    intro k hk hk0
    rw [toDigits_pos k hk] at hk0
    have h1 : (Nat.digits 10 k).reverse.map Nat.digitChar = [0].map Nat.digitChar := by
      rw [hk0]; decide
    have h2 := map_digitChar_inj _ [0]
      (fun x hx => Nat.digits_lt_base (by norm_num) (List.mem_reverse.1 hx))
      (fun x hx => by simp only [List.mem_singleton] at hx; omega) h1
    have h3 : Nat.digits 10 k = [0] := by
      have := congrArg List.reverse h2
      simpa using this
    have h4 := Nat.ofDigits_digits 10 k
    rw [h3] at h4
    simp [Nat.ofDigits] at h4
    omega
  rcases Nat.eq_zero_or_pos n with hn | hn <;> rcases Nat.eq_zero_or_pos m with hm | hm
  · rw [hn, hm]
  · rw [hn, toDigits_zero] at h
    exact absurd h.symm (key m hm)
  · rw [hm, toDigits_zero] at h
    exact absurd h (key n hn)
  · rw [toDigits_pos n hn, toDigits_pos m hm] at h
    have h2 := map_digitChar_inj _ _
      (fun x hx => Nat.digits_lt_base (by norm_num) (List.mem_reverse.1 hx))
      (fun x hx => Nat.digits_lt_base (by norm_num) (List.mem_reverse.1 hx)) h
    have h3 : Nat.digits 10 n = Nat.digits 10 m := by
      have := congrArg List.reverse h2
      simpa using this
    exact Nat.digits_inj_iff.1 h3

theorem digitChar_ne_minus (d : Nat) (hd : d < 10) : Nat.digitChar d ≠ '-' := by
  interval_cases d <;> decide

theorem digitChar_ne_paren (d : Nat) (hd : d < 10) : Nat.digitChar d ≠ ')' := by
  interval_cases d <;> decide

theorem fmtInt_inj (s t : Int) (h : fmtInt s = fmtInt t) : s = t := by
  have hminus : ∀ (n : Nat) (l : List Char), Nat.toDigits 10 n ≠ '-' :: l := by
    intro n l hl
    obtain ⟨d, hd, hdc⟩ := toDigits_mem_digit n '-' (by rw [hl]; exact List.mem_cons_self _ _)
    exact digitChar_ne_minus d hd hdc.symm
  cases s with
  | ofNat n =>
    cases t with
    | ofNat m =>
      simp only [fmtInt] at h
      rw [toDigits_inj n m h]
    | negSucc m =>
      simp only [fmtInt] at h
      exact absurd h (hminus n _)
  | negSucc n =>
    cases t with
    | ofNat m =>
      simp only [fmtInt] at h
      exact absurd h.symm (hminus m _)
    | negSucc m =>
      simp only [fmtInt, List.cons.injEq, true_and] at h
      have := toDigits_inj _ _ h
      have hnm : n = m := by omega
      rw [hnm]

theorem fmtInt_no_paren (s : Int) : ')' ∉ fmtInt s := by
  have hd : ∀ n : Nat, ')' ∉ Nat.toDigits 10 n := by
    intro n hmem
    obtain ⟨d, hd, hdc⟩ := toDigits_mem_digit n ')' hmem
    exact digitChar_ne_paren d hd hdc.symm
  cases s with
  | ofNat n => simpa [fmtInt] using hd n
  | negSucc n =>
    simp only [fmtInt, List.mem_cons, not_or]
    exact ⟨by decide, hd _⟩

theorem split_at_first {α : Type} (a : α) (l1 : List α) :
    ∀ (l2 r1 r2 : List α), a ∉ l1 → a ∉ l2 →
      l1 ++ a :: r1 = l2 ++ a :: r2 → l1 = l2 ∧ r1 = r2 := by
  induction l1 with
  | nil =>
    intro l2 r1 r2 _ h2 h
    cases l2 with
    | nil => simpa using h
    | cons b l2 =>
      simp only [List.nil_append, List.cons_append, List.cons.injEq] at h
      exact absurd (by rw [h.1]; exact List.mem_cons_self _ _) h2
  | cons x l1 ih =>
    intro l2 r1 r2 h1 h2 h
    cases l2 with
    | nil =>
      simp only [List.nil_append, List.cons_append, List.cons.injEq] at h
      exact absurd (by rw [h.1]; exact List.mem_cons_self _ _) h1
    | cons b l2 =>
      simp only [List.cons_append, List.cons.injEq] at h
      have := ih l2 r1 r2 (fun hm => h1 (List.mem_cons_of_mem x hm))
        (fun hm => h2 (List.mem_cons_of_mem b hm)) h.2
      exact ⟨by rw [h.1, this.1], this.2⟩

/-- The generic API error message determines the status code and the body
it was built from. -/
theorem apiError_inj (s1 s2 : Int) (b1 b2 : String)
    (h : apiError s1 b1 = apiError s2 b2) : s1 = s2 ∧ b1 = b2 := by
  have hd := congrArg String.data h
  simp only [apiError, String.data_append] at hd
  have hd1 : fmtInt s1 ++ ')' :: (':' :: ' ' :: b1.data) =
      fmtInt s2 ++ ')' :: (':' :: ' ' :: b2.data) := by
    simpa using hd
  have hs := split_at_first ')' (fmtInt s1) (fmtInt s2) _ _
    (fmtInt_no_paren s1) (fmtInt_no_paren s2) hd1
  refine ⟨fmtInt_inj s1 s2 hs.1, ?_⟩
  have hb : b1.data = b2.data := by simpa using hs.2
  exact String.ext hb

theorem apiError_ne_unauthorized (s : Int) (b : String) : apiError s b ≠ errUnauthorized := by
  intro h
  have hd := congrArg String.data h
  simp [apiError, errUnauthorized, String.data_append] at hd

theorem apiError_ne_rateLimited (s : Int) (b : String) : apiError s b ≠ errRateLimited := by
  intro h
  have hd := congrArg String.data h
  simp [apiError, errRateLimited, String.data_append] at hd

theorem parseError_ne_unauthorized (e : String) : parseError e ≠ errUnauthorized := by
  intro h
  have hd := congrArg String.data h
  simp [parseError, errUnauthorized, String.data_append] at hd

theorem parseError_ne_rateLimited (e : String) : parseError e ≠ errRateLimited := by
  intro h
  have hd := congrArg String.data h
  simp [parseError, errRateLimited, String.data_append] at hd

theorem parseError_ne_apiError (e : String) (s : Int) (b : String) :
    parseError e ≠ apiError s b := by
  intro h
  have hd := congrArg String.data h
  simp [parseError, apiError, String.data_append] at hd

/-! ## `Validate` and `Whoami`: status policy, decoding, backfill -/

/-- C3: for a completed exchange with status `s` and body `b`, `Validate`
returns the authorization error when `s = 401`, the rate-limit error when
`s = 429`, and for every other `s` outside [200,300) the generic API error
built from `s` and `b`, never a result; for `s` in [200,300) it returns none
of the three; the three messages differ pairwise and the generic one
determines both `s` and `b`. -/
theorem Validate_status_policy (unmarshal : String → Except String ValidationResult)
    (net : Net) (c : Client) (clock : List Int) (ctx : Context) (email : String)
    (a : Acquired) (s : Int) (b : String)
    (hacq : waitForToken c clock = some a)
    (hex : doRequest net ctx "POST" "/api/v1/verify" (some [("email", email)]) = .ok (b, s)) :
    (s = 401 → Validate unmarshal net c clock ctx email = some (a, .error errUnauthorized)) ∧
    (s = 429 → Validate unmarshal net c clock ctx email = some (a, .error errRateLimited)) ∧
    ((s < 200 ∨ 300 ≤ s) → s ≠ 401 → s ≠ 429 →
      Validate unmarshal net c clock ctx email = some (a, .error (apiError s b))) ∧
    (200 ≤ s → s < 300 → ∀ e : String,
      Validate unmarshal net c clock ctx email = some (a, .error e) →
        e ≠ errUnauthorized ∧ e ≠ errRateLimited ∧ ∀ s1 b1, e ≠ apiError s1 b1) ∧
    errUnauthorized ≠ errRateLimited ∧
    (∀ s1 b1, apiError s1 b1 ≠ errUnauthorized ∧ apiError s1 b1 ≠ errRateLimited) ∧
    (∀ s1 b1, apiError s1 b1 = apiError s b → s1 = s ∧ b1 = b) := by
  refine ⟨?_, ?_, ?_, ?_, by decide, ?_, ?_⟩
  · intro h
    simp [Validate, hacq, hex, h]
  · intro h
    simp [Validate, hacq, hex, h]
  · intro h h1 h2
    have h3 : s < 200 ∨ s ≥ 300 := h
    simp [Validate, hacq, hex, h1, h2, h3]
  · intro h1 h2 e he
    have n1 : ¬ s = 401 := by omega
    have n2 : ¬ s = 429 := by omega
    have n3 : ¬ (s < 200 ∨ s ≥ 300) := by omega
    simp only [Validate, hacq, hex, n1, n2, n3, if_false] at he
    cases hu : unmarshal b with
    | error cause =>
      simp only [hu, Option.some.injEq, Prod.mk.injEq, true_and, Except.error.injEq] at he
      rw [← he]
      exact ⟨parseError_ne_unauthorized cause, parseError_ne_rateLimited cause,
        fun s1 b1 => parseError_ne_apiError cause s1 b1⟩
    | ok r =>
      simp [hu] at he
  · intro s1 b1
    exact ⟨apiError_ne_unauthorized s1 b1, apiError_ne_rateLimited s1 b1⟩
  · intro s1 b1 h
    exact apiError_inj s1 s b1 b h

theorem Validate_status_policy_witness :
    Validate (fun _ => .error "unexpected end of JSON input") (mockNet 503 "busy")
        (New 0) [5] { done := none } "a@test.com" =
      some ({ client := { tokens := 9, lastReset := 0 }, admittedAt := 5,
              sleeps := [], rest := [] },
            .error "API error (status 503): busy") :=
  (Validate_status_policy (fun _ => .error "unexpected end of JSON input")
    (mockNet 503 "busy") (New 0) [5] { done := none } "a@test.com"
    { client := { tokens := 9, lastReset := 0 }, admittedAt := 5, sleeps := [], rest := [] }
    503 "busy" (by decide) rfl).2.2.1 (by decide) (by decide) (by decide)

/-- C6: for a 2xx response whose body decodes, `Validate` returns the decoded
result with the email field replaced by the input email when the decoded one
is empty, and every other field as decoded. -/
theorem Validate_backfills_email (unmarshal : String → Except String ValidationResult)
    (net : Net) (c : Client) (clock : List Int) (ctx : Context) (email : String)
    (a : Acquired) (s : Int) (b : String) (r : ValidationResult)
    (hacq : waitForToken c clock = some a)
    (hex : doRequest net ctx "POST" "/api/v1/verify" (some [("email", email)]) = .ok (b, s))
    (hlo : 200 ≤ s) (hhi : s < 300) (hdec : unmarshal b = .ok r) :
    Validate unmarshal net c clock ctx email =
      some (a, .ok { Email := if r.Email = "" then email else r.Email,
                     State := r.State, SubState := r.SubState,
                     FreeEmail := r.FreeEmail, Role := r.Role,
                     Disposable := r.Disposable, Suggestion := r.Suggestion }) := by
  have n1 : ¬ s = 401 := by omega
  have n2 : ¬ s = 429 := by omega
  have n3 : ¬ (s < 200 ∨ s ≥ 300) := by omega
  simp only [Validate, hacq, hex, n1, n2, n3, if_false, hdec]
  by_cases he : r.Email = ""
  · simp [he]
  · simp [he]

theorem Validate_backfills_email_witness :
    Validate (fun _ => .ok decodedWithoutEmail) (mockNet 200 "") (New 0) [5]
        { done := none } "a@test.com" =
      some ({ client := { tokens := 9, lastReset := 0 }, admittedAt := 5,
              sleeps := [], rest := [] },
            .ok { Email := "a@test.com", State := "valid", SubState := "ok",
                  FreeEmail := true, Role := false, Disposable := false,
                  Suggestion := "" }) :=
  Validate_backfills_email (fun _ => .ok decodedWithoutEmail) (mockNet 200 "") (New 0) [5]
    { done := none } "a@test.com"
    { client := { tokens := 9, lastReset := 0 }, admittedAt := 5, sleeps := [], rest := [] }
    200 "" decodedWithoutEmail (by decide) rfl (by decide) (by decide) rfl

/-- C7: for a response with status 200 whose body fails to decode, `Validate`
returns the decode error and no result, and the decode error differs from the
authorization, rate-limit and generic API errors. -/
theorem Validate_decode_error (unmarshal : String → Except String ValidationResult)
    (net : Net) (c : Client) (clock : List Int) (ctx : Context) (email : String)
    (a : Acquired) (b cause : String)
    (hacq : waitForToken c clock = some a)
    (hex : doRequest net ctx "POST" "/api/v1/verify" (some [("email", email)]) = .ok (b, 200))
    (hdec : unmarshal b = .error cause) :
    Validate unmarshal net c clock ctx email = some (a, .error (parseError cause)) ∧
      (∀ r, Validate unmarshal net c clock ctx email ≠ some (a, .ok r)) ∧
      parseError cause ≠ errUnauthorized ∧ parseError cause ≠ errRateLimited ∧
      ∀ s1 b1, parseError cause ≠ apiError s1 b1 := by
  have hv : Validate unmarshal net c clock ctx email = some (a, .error (parseError cause)) := by
    simp [Validate, hacq, hex, hdec]
  refine ⟨hv, ?_, parseError_ne_unauthorized cause, parseError_ne_rateLimited cause,
    fun s1 b1 => parseError_ne_apiError cause s1 b1⟩
  intro r h
  rw [hv] at h
  simp at h

theorem Validate_decode_error_witness :
    Validate (fun _ => .error "invalid character") (mockNet 200 "<html>")
        (New 0) [5] { done := none } "a@test.com" =
      some ({ client := { tokens := 9, lastReset := 0 }, admittedAt := 5,
              sleeps := [], rest := [] },
            .error "failed to parse response: invalid character") :=
  (Validate_decode_error (fun _ => .error "invalid character") (mockNet 200 "<html>")
    (New 0) [5] { done := none } "a@test.com"
    { client := { tokens := 9, lastReset := 0 }, admittedAt := 5, sleeps := [], rest := [] }
    "<html>" "invalid character" (by decide) rfl rfl).1

/-- C9 (as stated, refuted): `Validate` and `Whoami` called with a cancelled
context on an empty bucket whose window has not rolled over still sleep out
the half second that is left and take a token at the refill, before the
cancellation error of the transport is returned. -/
theorem cancelled_context_still_waits :
    Validate (fun _ => .error "invalid character") (mockNet 200 "")
        { tokens := 0, lastReset := 0 } [500000000, 1000000000]
        { done := some "context canceled" } "a@test.com" =
      some ({ client := { tokens := 9, lastReset := 1000000000 },
              admittedAt := 1000000000, sleeps := [500000000], rest := [] },
            .error "request failed: context canceled") ∧
    Whoami accountDecoder (mockNet 200 accountBody)
        { tokens := 0, lastReset := 0 } [500000000, 1000000000]
        { done := some "context canceled" } =
      some ({ client := { tokens := 9, lastReset := 1000000000 },
              admittedAt := 1000000000, sleeps := [500000000], rest := [] },
            .error "request failed: context canceled") :=
  ⟨rfl, rfl⟩

/-- C9 (amended): token acquisition does not observe the caller's context.
Whatever the context, `Validate` and `Whoami` perform exactly the acquisition
`waitForToken` performs on this clock (same sleeps, same token taken); when
the context is done and the request could be built, the call returns, after
that acquisition, the transport's error for the done context and no
result. -/
theorem acquisition_ignores_context (uV : String → Except String ValidationResult)
    (uA : String → Except String AccountInfo) (net : Net) (c : Client)
    (clock : List Int) (ctx : Context) (email : String) :
    (Validate uV net c clock ctx email).map Prod.fst = waitForToken c clock ∧
    (Whoami uA net c clock ctx).map Prod.fst = waitForToken c clock ∧
    (∀ (cause : String) (a : Acquired) (payload : String),
      ctx.done = some cause → waitForToken c clock = some a →
      net.marshal [("email", email)] = .ok payload →
      net.create "POST" "/api/v1/verify" = none →
      Validate uV net c clock ctx email = some (a, .error ("request failed: " ++ cause))) ∧
    (∀ (cause : String) (a : Acquired),
      ctx.done = some cause → waitForToken c clock = some a →
      net.create "GET" "/api/v1/account" = none →
      Whoami uA net c clock ctx = some (a, .error ("request failed: " ++ cause))) := by
  refine ⟨?_, ?_, ?_, ?_⟩
  · unfold Validate
    cases waitForToken c clock <;> simp
  · unfold Whoami
    cases waitForToken c clock <;> simp
  · intro cause a payload hdone hacq hm hc
    simp [Validate, hacq, doRequest, hm, hc, hdone]
  · intro cause a hdone hacq hc
    simp [Whoami, hacq, doRequest, hc, hdone]

theorem acquisition_ignores_context_witness :
    Validate (fun _ => .ok decodedWithoutEmail) (mockNet 200 "")
        { tokens := 0, lastReset := 0 } [999999999, 1000000007]
        { done := some "context deadline exceeded" } "a@test.com" =
      some ({ client := { tokens := 9, lastReset := 1000000007 },
              admittedAt := 1000000007, sleeps := [10000000], rest := [] },
            .error "request failed: context deadline exceeded") :=
  (acquisition_ignores_context (fun _ => .ok decodedWithoutEmail) accountDecoder
    (mockNet 200 "") { tokens := 0, lastReset := 0 } [999999999, 1000000007]
    { done := some "context deadline exceeded" } "a@test.com").2.2.1
    "context deadline exceeded"
    { client := { tokens := 9, lastReset := 1000000007 },
      admittedAt := 1000000007, sleeps := [10000000], rest := [] }
    "" rfl (by decide) rfl rfl

/-! ## The stdin batch runner on the scenario of the specification -/

/-- C4 (as stated, refuted): on the five lines of the scenario the runner
skips the two blank lines, calls validate for the other three in order,
records one warning, and reports the total 2, not 3: the failed entry is in
none of the four counts the total is summed from. -/
theorem stdin_scenario_total_is_two :
    (runStdinValidation false false false scenarioValidate scenarioLines none none).run.validated
      = ["a@test.com", "bad-row-triggers-error", "b@test.com"] ∧
    (runStdinValidation false false false scenarioValidate scenarioLines none none).run.warnings
      = ["failed to validate bad-row-triggers-error: API error (status 500): boom"] ∧
    (runStdinValidation false false false scenarioValidate scenarioLines none none).summary
      = some { total := 2, valid := 2, invalid := 0, risky := 0, unknown := 0 } ∧
    (runStdinValidation false false false scenarioValidate scenarioLines none none).summary.map
      Summary.total ≠ some 3 := by
  decide

theorem scenario_trims :
    TrimSpace "a@test.com" = "a@test.com" ∧ TrimSpace "" = "" ∧ TrimSpace "  " = "" ∧
      TrimSpace "bad-row-triggers-error" = "bad-row-triggers-error" ∧
      TrimSpace "b@test.com" = "b@test.com" := by
  decide

theorem ToLower_states (st : String)
    (h : st ∈ ["valid", "invalid", "risky", "unknown"]) : ToLower st = st := by
  simp only [List.mem_cons, List.mem_singleton, List.not_mem_nil, or_false] at h
  rcases h with h | h | h | h <;> rw [h] <;> decide

theorem total_after_two (s1 s2 : String)
    (h1 : s1 ∈ ["valid", "invalid", "risky", "unknown"])
    (h2 : s2 ∈ ["valid", "invalid", "risky", "unknown"]) :
    (summarize (bump (bump zeroCounts s1) s2)).total = 2 := by
  simp only [List.mem_cons, List.mem_singleton, List.not_mem_nil, or_false] at h1 h2
  rcases h1 with h | h | h | h <;> rcases h2 with g | g | g | g <;> rw [h, g] <;> decide

/-- C4 (amended): on the lines `["a@test.com", "", "  ",
"bad-row-triggers-error", "b@test.com"]`, with validate succeeding for the
two addresses (each with a state among valid, invalid, risky, unknown) and
failing for the third entry, the blank and whitespace-only lines are skipped
without a validate call, exactly one warning is recorded, naming the failing
entry and its error, the entry after it is still processed, and the reported
total is 2: the two successes, the failure being counted nowhere. -/
theorem stdin_scenario_tally (validate : Nat → String → Except String ValidationResult)
    (ra rb : ValidationResult) (e : String) (scanErr encodeErr : Option String)
    (ha : validate 0 "a@test.com" = .ok ra)
    (hbad : validate 3 "bad-row-triggers-error" = .error e)
    (hb : validate 4 "b@test.com" = .ok rb)
    (hsa : ra.State ∈ ["valid", "invalid", "risky", "unknown"])
    (hsb : rb.State ∈ ["valid", "invalid", "risky", "unknown"]) :
    (runStdinValidation false false false validate scenarioLines scanErr encodeErr).run.validated
      = ["a@test.com", "bad-row-triggers-error", "b@test.com"] ∧
    (runStdinValidation false false false validate scenarioLines scanErr encodeErr).run.warnings
      = ["failed to validate bad-row-triggers-error: " ++ e] ∧
    (runStdinValidation false false false validate scenarioLines scanErr encodeErr).run.results
      = [ra, rb] ∧
    (runStdinValidation false false false validate scenarioLines scanErr encodeErr).summary.map
      Summary.total = some 2 := by
  obtain ⟨t1, t2, t3, t4, t5⟩ := scenario_trims
  have hrun : stdinLoop false validate 0 scenarioLines StdinRun.empty =
      { validated := ["a@test.com", "bad-row-triggers-error", "b@test.com"],
        warnings := ["failed to validate bad-row-triggers-error: " ++ e],
        results := [ra, rb],
        printed := [ra, rb],
        counts := bump (bump zeroCounts ra.State) rb.State } := by
    simp [scenarioLines, stdinLoop, t1, t2, t3, t4, t5, ha, hbad, hb, StdinRun.empty,
      ToLower_states ra.State hsa, ToLower_states rb.State hsb]
  have htot := total_after_two ra.State rb.State hsa hsb
  cases encodeErr <;> simp [runStdinValidation, hrun, htot]

theorem stdin_scenario_tally_witness :
    (runStdinValidation false false false scenarioValidate scenarioLines none none).run.results
      = [verdict "a@test.com" "valid", verdict "b@test.com" "valid"] :=
  (stdin_scenario_tally scenarioValidate (verdict "a@test.com" "valid")
    (verdict "b@test.com" "valid") "API error (status 500): boom" none none
    rfl rfl rfl (by decide) (by decide)).2.2.1

/-! ## The file batch loop -/

theorem fileLoop_all_written (validate : Nat → String → Except String ValidationResult)
    (writeErr : Nat → Option String) (idx : Nat) (hw : ∀ k, writeErr k = none)
    (rows : List (List String)) :
    ∀ (i : Nat) (st : FileRun),
      ∃ out, fileLoop validate writeErr idx i rows st = .ok out ∧
        out.rows = st.rows ++
          (rows.enumFrom i).map (fun p => p.2 ++ expectedFields validate idx p.1 p.2) ∧
        out.validated = st.validated ++
          (rows.enumFrom i).filterMap (fun p => expectedCall idx p.2) := by
  induction rows with
  | nil =>
    intro i st
    exact ⟨st, by simp [fileLoop]⟩
  | cons row rest ih =>
    intro i st
    by_cases hlen : idx ≥ row.length
    · have hget : row[idx]? = none := List.getElem?_eq_none hlen
      obtain ⟨out, h1, h2, h3⟩ := ih (i + 1) (st.put writeErr i (row ++ ["", "", ""]))
      refine ⟨out, ?_, ?_, ?_⟩
      · simp [fileLoop, hlen, h1]
      · simp [h2, FileRun.put, hw, List.enumFrom_cons, expectedFields, hget]
      · simp [h3, FileRun.put, hw, List.enumFrom_cons, expectedCall, hget]
    · have hlt : idx < row.length := by omega
      have hget : row[idx]? = some row[idx] := List.getElem?_eq_getElem hlt
      by_cases hemp : TrimSpace row[idx] = ""
      · obtain ⟨out, h1, h2, h3⟩ := ih (i + 1) (st.put writeErr i (row ++ ["", "", ""]))
        refine ⟨out, ?_, ?_, ?_⟩
        · simp [fileLoop, hlen, hget, hemp, h1]
        · simp [h2, FileRun.put, hw, List.enumFrom_cons, expectedFields, hget, hemp]
        · simp [h3, FileRun.put, hw, List.enumFrom_cons, expectedCall, hget, hemp]
      · cases hv : validate i (TrimSpace row[idx]) with
        | error e =>
          obtain ⟨out, h1, h2, h3⟩ := ih (i + 1)
            (FileRun.put writeErr i (row ++ ["error", e, ""])
              { st with
                validated := st.validated ++ [TrimSpace row[idx]],
                warnings := st.warnings ++
                  ["\nWarning: failed to validate " ++ TrimSpace row[idx] ++ ": "
                    ++ e ++ "\n"] })
          refine ⟨out, ?_, ?_, ?_⟩
          · simp [fileLoop, hlen, hget, hemp, hv, h1]
          · simp [h2, FileRun.put, hw, List.enumFrom_cons, expectedFields, hget, hemp, hv]
          · simp [h3, FileRun.put, hw, List.enumFrom_cons, expectedCall, hget, hemp]
        | ok r =>
          obtain ⟨out, h1, h2, h3⟩ := ih (i + 1)
            { rows := st.rows ++ [row ++ [r.State, r.SubState, r.Suggestion]],
              warnings := st.warnings,
              validated := st.validated ++ [TrimSpace row[idx]],
              progress := st.progress + 1,
              counts := bump st.counts (ToLower r.State) }
          refine ⟨out, ?_, ?_, ?_⟩
          · simp [fileLoop, hlen, hget, hemp, hv, hw, h1]
          · simp [h2, List.enumFrom_cons, expectedFields, hget, hemp, hv]
          · simp [h3, List.enumFrom_cons, expectedCall, hget, hemp]

theorem fileLoop_abort (validate : Nat → String → Except String ValidationResult)
    (writeErr : Nat → Option String) (idx : Nat) (rows : List (List String)) :
    ∀ (i : Nat) (st : FileRun) (msg : String),
      fileLoop validate writeErr idx i rows st = .error msg →
      ∃ (j : Nat) (row : List String) (cause email : String) (r : ValidationResult),
        rows[j]? = some row ∧ writeErr (i + j) = some cause ∧
        msg = "failed to write row: " ++ cause ∧
        expectedCall idx row = some email ∧ validate (i + j) email = .ok r := by
  induction rows with
  | nil =>
    intro i st msg h
    simp [fileLoop] at h
  | cons row rest ih =>
    intro i st msg h
    have lift : ∀ st1, fileLoop validate writeErr idx (i + 1) rest st1 = .error msg →
        ∃ (j : Nat) (row1 : List String) (cause email : String) (r : ValidationResult),
          (row :: rest)[j]? = some row1 ∧ writeErr (i + j) = some cause ∧
          msg = "failed to write row: " ++ cause ∧
          expectedCall idx row1 = some email ∧ validate (i + j) email = .ok r := by
      intro st1 h1
      obtain ⟨j, row1, cause, email, r, g1, g2, g3, g4, g5⟩ := ih (i + 1) st1 msg h1
      refine ⟨j + 1, row1, cause, email, r, ?_, ?_, g3, g4, ?_⟩
      · simpa using g1
      · rw [← g2]; congr 1; omega
      · rw [← g5]; congr 1; omega
    by_cases hlen : idx ≥ row.length
    · simp only [fileLoop, hlen, if_true] at h
      exact lift _ h
    · have hlt : idx < row.length := by omega
      have hget : row[idx]? = some row[idx] := List.getElem?_eq_getElem hlt
      by_cases hemp : TrimSpace row[idx] = ""
      · simp only [fileLoop, hlen, if_false, hget, Option.getD_some, hemp, if_true] at h
        exact lift _ h
      · cases hv : validate i (TrimSpace row[idx]) with
        | error e =>
          simp only [fileLoop, hlen, if_false, hget, Option.getD_some, hemp, hv] at h
          exact lift _ h
        | ok r =>
          cases hwr : writeErr i with
          | none =>
            simp only [fileLoop, hlen, if_false, hget, Option.getD_some, hemp, hv, hwr] at h
            exact lift _ h
          | some cause =>
            simp only [fileLoop, hlen, if_false, hget, Option.getD_some, hemp, hv, hwr,
              Except.error.injEq] at h
            refine ⟨0, row, cause, TrimSpace row[idx], r, by simp, by simpa using hwr,
              h.symm, ?_, by simpa using hv⟩
            simp [expectedCall, hget, hemp]

theorem expectedFields_length (validate : Nat → String → Except String ValidationResult)
    (idx i : Nat) (row : List String) : (expectedFields validate idx i row).length = 3 := by
  unfold expectedFields
  cases row[idx]? with
  | none => rfl
  | some cell =>
    simp only
    split_ifs
    · rfl
    · cases validate i (TrimSpace cell) <;> rfl

theorem readRows_field_counts (input : List ReadStep) :
    ∀ (n : Nat) (rows : List (List String)), 0 < n →
      readRows n input = .ok rows → ∀ row ∈ rows, row.length = n := by
  induction input with
  | nil =>
    intro n rows _ h
    simp only [readRows, Except.ok.injEq] at h
    rw [← h]
    simp
  | cons step rest ih =>
    intro n rows hn h
    cases step with
    | failure e => simp [readRows] at h
    | record line row =>
      have hn0 : ¬ n = 0 := by omega
      by_cases hbad : n > 0 ∧ row.length ≠ n
      · simp [readRows, hbad] at h
      · have hlen : row.length = n := by
          by_contra hne
          exact hbad ⟨hn, hne⟩
        simp only [readRows, hbad, if_false, hn0] at h
        cases hr : readRows n rest with
        | error e => simp [hr] at h
        | ok rows1 =>
          simp only [hr, Except.ok.injEq] at h
          rw [← h]
          intro r hr1
          rcases List.mem_cons.1 hr1 with h1 | h1
          · rw [h1]; exact hlen
          · exact ih n rows1 hn hr r h1

/-- A record whose field count differs from the header's, after records that
all have the header's count, makes `runFileValidation` return the reader's
error before the output file is created. -/
theorem runFileValidation_wrong_field_count
    (validate : Nat → String → Except String ValidationResult) (env : FileEnv)
    (header : List String) (idx : Nat) (pre : List (Nat × List String))
    (line : Nat) (row : List String) (post : List ReadStep)
    (hh : 0 < header.length) (hpre : ∀ p ∈ pre, p.2.length = header.length)
    (hrow : row.length ≠ header.length) :
    runFileValidation validate env header idx
        (pre.map (fun p => ReadStep.record p.1 p.2) ++ ReadStep.record line row :: post) =
      .error (fieldCountError line) := by
  have hread : readRows header.length
      (pre.map (fun p => ReadStep.record p.1 p.2) ++ ReadStep.record line row :: post) =
      .error (fieldCountError line) := by
    have hn0 : ¬ header.length = 0 := by omega
    induction pre with
    | nil => simp [readRows, hh, hrow]
    | cons p pre ih =>
      have hp := hpre p (List.mem_cons_self p pre)
      have ih1 := ih (fun q hq => hpre q (List.mem_cons_of_mem p hq))
      simp [readRows, hp, hn0, ih1]
  simp [runFileValidation, hread]

/-- Once the rows are read, whatever the outcomes of validate, the function
never aborts on a failed validation and, the file operations succeeding,
writes one output row per row read, in order, each the row followed by the
three fields the specification lists; every row read has the field count of
the header, so the email cell is always there. -/
theorem runFileValidation_rows_read
    (validate : Nat → String → Except String ValidationResult) (env : FileEnv)
    (header : List String) (idx : Nat) (input : List ReadStep)
    (rows : List (List String))
    (hread : readRows header.length input = .ok rows)
    (hc : env.createErr = none) (hh : env.headerErr = none)
    (hw : ∀ k, env.writeErr k = none) (hf : env.flushErr = none) :
    (∃ out, runFileValidation validate env header idx input = .ok out ∧
      out.run.rows =
        rows.enum.map (fun p => p.2 ++ expectedFields validate idx p.1 p.2) ∧
      out.run.rows.length = rows.length ∧
      out.run.validated = rows.enum.filterMap (fun p => expectedCall idx p.2)) ∧
    (∀ i row, (expectedFields validate idx i row).length = 3) ∧
    (idx < header.length → ∀ row ∈ rows, idx < row.length) := by
  refine ⟨?_, expectedFields_length validate idx, ?_⟩
  · obtain ⟨st, h1, h2, h3⟩ :=
      fileLoop_all_written validate env.writeErr idx hw rows 0 FileRun.empty
    refine ⟨{ outHeader := header ++
                ["truelist_state", "truelist_sub_state", "truelist_suggestion"],
              run := st, summary := summarize st.counts }, ?_, ?_, ?_, ?_⟩
    · simp [runFileValidation, hread, hc, hh, h1, hf]
    · simpa [FileRun.empty, List.enum] using h2
    · simp [h2, FileRun.empty]
    · simpa [FileRun.empty, List.enum] using h3
  · intro hidx row hrow
    have := readRows_field_counts input header.length rows (by omega) hread row hrow
    omega

/-- Whatever the outcomes of validate, an error returned by
`runFileValidation` is never that of a failed validation: it is the reader's,
that of a file operation, or that of the writer refusing the output row of a
row whose validation succeeded. -/
theorem runFileValidation_abort_causes
    (validate : Nat → String → Except String ValidationResult) (env : FileEnv)
    (header : List String) (idx : Nat) (input : List ReadStep) (msg : String)
    (h : runFileValidation validate env header idx input = .error msg) :
    readRows header.length input = .error msg ∨
    env.createErr = some msg ∨
    (∃ cause, env.headerErr = some cause ∧ msg = "failed to write header: " ++ cause) ∨
    (∃ cause, env.flushErr = some cause ∧ msg = "failed to write CSV output: " ++ cause) ∨
    (∃ (rows : List (List String)) (j : Nat) (row : List String) (cause email : String)
        (r : ValidationResult),
      readRows header.length input = .ok rows ∧ rows[j]? = some row ∧
      env.writeErr j = some cause ∧ msg = "failed to write row: " ++ cause ∧
      expectedCall idx row = some email ∧ validate j email = .ok r) := by
  unfold runFileValidation at h
  cases hread : readRows header.length input with
  | error e =>
    simp only [hread, Except.error.injEq] at h
    exact Or.inl (by rw [h])
  | ok rows =>
    simp only [hread] at h
    cases hc : env.createErr with
    | some e =>
      simp only [hc, Except.error.injEq] at h
      exact Or.inr (Or.inl (by rw [h]))
    | none =>
      simp only [hc] at h
      cases hh : env.headerErr with
      | some e =>
        simp only [hh, Except.error.injEq] at h
        exact Or.inr (Or.inr (Or.inl ⟨e, rfl, h.symm⟩))
      | none =>
        simp only [hh] at h
        cases hl : fileLoop validate env.writeErr idx 0 rows FileRun.empty with
        | error e =>
          simp only [hl, Except.error.injEq] at h
          obtain ⟨j, row, cause, email, r, g1, g2, g3, g4, g5⟩ :=
            fileLoop_abort validate env.writeErr idx rows 0 FileRun.empty e hl
          refine Or.inr (Or.inr (Or.inr (Or.inr
            ⟨rows, j, row, cause, email, r, rfl, g1, by simpa using g2, ?_, g4,
              by simpa using g5⟩)))
          rw [← h, g3]
        | ok st =>
          simp only [hl] at h
          cases hf : env.flushErr with
          | none => simp [hf] at h
          | some cause =>
            simp only [hf, Except.error.injEq] at h
            exact Or.inr (Or.inr (Or.inr (Or.inl ⟨cause, rfl, h.symm⟩)))

/-- C5 (the code departs from the claim): on a file with the header
`id,email` whose second data row has the single field `2`, the function
returns the reader's error for that row before the output file is created, so
no output row is written, although the row loop, given the same rows, writes
one output row for each of them, the short row followed by three empty
fields. -/
theorem runFileValidation_short_row_aborts :
    runFileValidation scenarioValidate quietEnv sampleHeader 1 sampleInput =
      .error "record on line 3: wrong number of fields" ∧
    (runFileValidation scenarioValidate quietEnv sampleHeader 1 sampleInput).toOption.map
      (fun out => out.run.rows) = none ∧
    (fileLoop scenarioValidate quietEnv.writeErr 1 0 sampleRows FileRun.empty).toOption.map
      (fun st => st.rows) =
      some [["1", "a@test.com", "valid", "", ""], ["2", "", "", ""],
        ["3", "  ", "", "", ""],
        ["4", "bad-row-triggers-error", "error", "API error (status 500): boom", ""]] ∧
    (runFileValidation scenarioValidate quietEnv sampleHeader 1 uniformInput).toOption.map
      (fun out => out.run.rows) =
      some [["1", "a@test.com", "valid", "", ""], ["3", "  ", "", "", ""],
        ["4", "bad-row-triggers-error", "error", "API error (status 500): boom", ""]] :=
  ⟨rfl, rfl, rfl, rfl⟩

/-! ## Rate limiter: every call returns after at most one sleep -/

theorem lockedPass_not_taken (c : Client) (now : Int) (h : (lockedPass c now).2 = false) :
    now - c.lastReset < Second ∧ c.tokens ≤ 0 := by
  by_cases hr : now - c.lastReset ≥ Second
  · rw [lockedPass_refill c now hr] at h
    simp at h
  · have hr1 : now - c.lastReset < Second := by omega
    by_cases ht : 0 < c.tokens
    · rw [lockedPass_take c now hr1 ht] at h
      simp at h
    · exact ⟨hr1, by omega⟩

theorem sleepDuration_of_elapsed (c : Client) (now : Int)
    (h0 : c.lastReset ≤ now) (h1 : now - c.lastReset < Second) :
    Sub now c.lastReset = now - c.lastReset ∧
      sleepDuration c now = max (Second - (now - c.lastReset)) (10 * Millisecond) := by
  have hs : Sub now c.lastReset = now - c.lastReset := by
    unfold Sub maxDuration minDuration
    unfold Second at h1
    split_ifs <;> omega
  refine ⟨hs, ?_⟩
  unfold sleepDuration
  simp only [hs]
  unfold wrap64 Second Millisecond
  unfold Second at h1
  rw [max_def]
  split_ifs <;> omega

theorem lockedPass_snd_cases (c : Client) (now : Int) :
    (lockedPass c now).2 = true ∨ (lockedPass c now).2 = false := by
  cases (lockedPass c now).2 <;> simp

theorem lockedPass_reset_le (c : Client) (now : Int) (h : c.lastReset ≤ now) :
    (lockedPass c now).1.lastReset ≤ now := by
  by_cases hr : now - c.lastReset ≥ Second
  · rw [lockedPass_refill c now hr]
  · have hr1 : now - c.lastReset < Second := by omega
    by_cases ht : 0 < c.tokens
    · rw [lockedPass_take c now hr1 ht]
      exact h
    · rw [lockedPass_empty c now hr1 (by omega)]
      exact h

/-- C11: for a single caller whose clock reading is not before the window
start and advances by at least the slept duration, `waitForToken` returns
after at most one sleep.  When a pass finds no token, the sleep it computes is
max(1 second - elapsed, 10 ms), at least 10 ms, at most 1 second and at least
the time left to the next window boundary, so the retry sees an elapsed time
of at least one second, refills the bucket and takes a token. -/
theorem waitForToken_returns_after_one_sleep (c : Client) (now next : Int)
    (rest : List Int) (hmono : c.lastReset ≤ now)
    (hlive : (lockedPass c now).2 = false → now + sleepDuration c now ≤ next) :
    (∃ a, waitForToken c (now :: next :: rest) = some a ∧ a.sleeps.length ≤ 1 ∧
      (a.admittedAt = now ∨ a.admittedAt = next) ∧ a.client.lastReset ≤ a.admittedAt) ∧
    ((lockedPass c now).2 = false →
      sleepDuration c now = max (Second - Sub now c.lastReset) (10 * Millisecond) ∧
      10 * Millisecond ≤ sleepDuration c now ∧ sleepDuration c now ≤ Second ∧
      c.lastReset + Second - now ≤ sleepDuration c now ∧
      Sub next c.lastReset ≥ Second ∧
      waitForToken c (now :: next :: rest) =
        some { client := { tokens := rateLimit - 1, lastReset := next },
               admittedAt := next, sleeps := [sleepDuration c now], rest := rest }) := by
  have hsleep : (lockedPass c now).2 = false →
      sleepDuration c now = max (Second - Sub now c.lastReset) (10 * Millisecond) ∧
      10 * Millisecond ≤ sleepDuration c now ∧ sleepDuration c now ≤ Second ∧
      c.lastReset + Second - now ≤ sleepDuration c now ∧
      Sub next c.lastReset ≥ Second ∧
      waitForToken c (now :: next :: rest) =
        some { client := { tokens := rateLimit - 1, lastReset := next },
               admittedAt := next, sleeps := [sleepDuration c now], rest := rest } := by
    intro hno
    obtain ⟨hel, htok⟩ := lockedPass_not_taken c now hno
    obtain ⟨hs, hd⟩ := sleepDuration_of_elapsed c now hmono hel
    have hnext := hlive hno
    have hle : Second - (now - c.lastReset) ≤ sleepDuration c now := by
      rw [hd]; exact le_max_left _ _
    have hnx : next - c.lastReset ≥ Second := by omega
    have hp1 := lockedPass_empty c now hel htok
    have hp2 := lockedPass_refill c next hnx
    refine ⟨by rw [hs]; exact hd, ?_, ?_, by omega, (Sub_ge_Second_iff _ _).2 hnx, ?_⟩
    · rw [hd]; exact le_max_right _ _
    · rw [hd]
      apply max_le
      · omega
      · unfold Millisecond Second; omega
    · simp [waitForToken, hp1, hp2, rateLimit]
  refine ⟨?_, hsleep⟩
  rcases lockedPass_snd_cases c now with hyes | hno
  · refine ⟨{ client := (lockedPass c now).1, admittedAt := now, sleeps := [],
              rest := next :: rest }, ?_, by simp, Or.inl rfl, ?_⟩
    · simp [waitForToken, hyes]
    · exact lockedPass_reset_le c now hmono
  · obtain ⟨_, _, _, _, _, hw⟩ := hsleep hno
    exact ⟨_, hw, by simp, Or.inr rfl, by simp⟩

theorem waitForToken_returns_after_one_sleep_witness :
    waitForToken { tokens := 0, lastReset := 0 } [400000000, 1000000000] =
      some { client := { tokens := 9, lastReset := 1000000000 },
             admittedAt := 1000000000, sleeps := [600000000], rest := [] } :=
  ((waitForToken_returns_after_one_sleep { tokens := 0, lastReset := 0 }
    400000000 1000000000 [] (by decide) (by decide)).2 (by decide)).2.2.2.2.2.trans
    (by decide)

end Truelist
